import Mathlib

/-!
Verification development for the `cristosal/orm` struct-to-row mapping engine.

The Go source is shallowly embedded: descriptor trees (`StructMapping` /
`FieldMapping`) become a mutual inductive rose tree (`FieldMappings` is the
forest type, isomorphic to a list of fields, kept first-order so every
operation is structurally recursive and kernel-computable), the classifier
operations of `schema/field.go` (`Find`, `FindPK`, `FindByColumn`,
`Writeable`, `Columns`) become recursive functions, the value extractor
(`Values`, `Addrs`), the name normalizer (`snakecase`) and the CRUD
orchestrator (`Add`, `List`, `Get`, `CollectRows`, `UpdateByID`) become
pure functions over explicit value/row models, and the introspector
(`GetMapping`) becomes a fuel-indexed state transformer over an explicit
descriptor cache.
-/

namespace Orm

/-- Error values of the engine: `ErrInvalidType`, `ErrFieldNotFound`
(part_012 lines 294-299) and the not-found sentinel `ErrNotFound`
(= `sql.ErrNoRows`, part_014 line 53). -/
inductive OrmErr where
  | invalidType
  | fieldNotFound
  | notFound
deriving DecidableEq, Repr

/-- `schema.ForeignKey` (src/schema/field.go lines 15-18): target table and
column of a foreign-key annotation. -/
structure ForeignKey where
  table : String
  column : String
deriving DecidableEq, Repr

mutual

/-- `schema.FieldMapping` (src/schema/field.go lines 4-12).  The Go struct
holds `Schema *StructMapping`; since every classifier operation reads only
`Schema.Fields`, the nested descriptor is embedded as the flag
`hasEmbedded` (`Schema != nil`) together with the child field list
(`Schema.Fields`).  Leaves are built with `hasEmbedded = false` and an
empty child list. -/
inductive FieldMapping : Type where
  | mk (name : String) (column : String) (index : Nat)
       (isReadOnly : Bool) (isPrimaryKey : Bool)
       (foreignKey : Option ForeignKey)
       (hasEmbedded : Bool) (embedded : FieldMappings)

/-- `schema.FieldMappings` (src/schema/field.go line 30): an ordered field
list, as a first-order forest type. -/
inductive FieldMappings : Type where
  | nil
  | cons (f : FieldMapping) (rest : FieldMappings)

end

namespace FieldMapping

def name : FieldMapping → String
  | .mk n _ _ _ _ _ _ _ => n

def column : FieldMapping → String
  | .mk _ c _ _ _ _ _ _ => c

def index : FieldMapping → Nat
  | .mk _ _ i _ _ _ _ _ => i

def isReadOnly : FieldMapping → Bool
  | .mk _ _ _ ro _ _ _ _ => ro

def isPrimaryKey : FieldMapping → Bool
  | .mk _ _ _ _ pk _ _ _ => pk

def foreignKey : FieldMapping → Option ForeignKey
  | .mk _ _ _ _ _ fk _ _ => fk

/-- `FieldMapping.HasSchema` (src/schema/field.go lines 21-23): the field
contains an embedded schema. -/
def HasSchema : FieldMapping → Bool
  | .mk _ _ _ _ _ _ hs _ => hs

/-- The embedded schema's field list (`f.Schema.Fields`). -/
def schemaFields : FieldMapping → FieldMappings
  | .mk _ _ _ _ _ _ _ sub => sub

/-- `FieldMapping.IsWriteable` (src/schema/field.go lines 26-28):
`!f.IsReadOnly && !f.IsPrimaryKey`. -/
def IsWriteable (f : FieldMapping) : Bool :=
  !f.isReadOnly && !f.isPrimaryKey

/-- Constructor for a leaf field (no embedded schema). -/
def leaf (name column : String) (index : Nat)
    (ro pk : Bool) (fk : Option ForeignKey := none) : FieldMapping :=
  .mk name column index ro pk fk false .nil

/-- Constructor for a structural field carrying an embedded schema, as
built by `GetMapping` for anonymous fields (part_012 lines 712-721): only
`Name`, `Index` and `Schema` are set; `Column` stays empty and the flags
stay false. -/
def node (name : String) (index : Nat) (sub : FieldMappings) : FieldMapping :=
  .mk name "" index false false none true sub

end FieldMapping

namespace FieldMappings

/-- Concatenation of field lists. -/
def append : FieldMappings → FieldMappings → FieldMappings
  | .nil, ys => ys
  | .cons f rest, ys => .cons f (append rest ys)

/-- Conversion from a Lean list of fields. -/
def ofList : List FieldMapping → FieldMappings
  | [] => .nil
  | f :: rest => .cons f (ofList rest)

/-- `FieldMappings.Find` (src/schema/field.go lines 33-56).  Walks the
field list in order; a field satisfying the predicate is returned with path
`[field.Index]`.  A field holding an embedded schema is searched
recursively and, on success, the result path is prefixed with that field's
index; on recursive failure the Go code `break`s out of the loop, so the
whole search fails without visiting later siblings. -/
def Find : FieldMappings → (FieldMapping → Bool) → Except OrmErr (FieldMapping × List Nat)
  | .nil, _ => .error .fieldNotFound
  | .cons f rest, p =>
    match f with
    | .mk _ _ _ _ _ _ hs sub =>
      if p f then .ok (f, [f.index])
      else if hs then
        match Find sub p with
        | .ok (g, idxs) => .ok (g, f.index :: idxs)
        | .error _ => .error .fieldNotFound
      else Find rest p

/-- `FieldMappings.FindByColumn` (src/schema/field.go lines 59-63). -/
def FindByColumn (fields : FieldMappings) (col : String) :
    Except OrmErr (FieldMapping × List Nat) :=
  Find fields (fun f => f.column == col)

/-- `FieldMappings.FindPK` (src/schema/field.go lines 66-70). -/
def FindPK (fields : FieldMappings) :
    Except OrmErr (FieldMapping × List Nat) :=
  Find fields (fun f => f.isPrimaryKey)

/-- `FieldMappings.Writeable` (src/schema/field.go lines 84-102): drops
fields with `IsWriteable = false`, recursing into embedded schemas. -/
def Writeable : FieldMappings → FieldMappings
  | .nil => .nil
  | .cons f rest =>
    match f with
    | .mk _ _ _ _ _ _ hs sub =>
      if !f.IsWriteable then Writeable rest
      else if hs then append (Writeable sub) (Writeable rest)
      else .cons f (Writeable rest)

/-- `FieldMappings.Columns` (src/schema/field.go lines 105-115): the
column names of all leaf fields, depth-first. -/
def Columns : FieldMappings → List String
  | .nil => []
  | .cons f rest =>
    match f with
    | .mk _ _ _ _ _ _ hs sub =>
      if hs then Columns sub ++ Columns rest
      else f.column :: Columns rest

end FieldMappings

/-- First field at one level satisfying a predicate (no recursion into
embedded schemas); used to state path resolution. -/
def findAtLevel (p : FieldMapping → Bool) : FieldMappings → Option FieldMapping
  | .nil => none
  | .cons f rest => if p f then some f else findAtLevel p rest

/-- Every field at one level satisfies the predicate (no recursion). -/
def levelAll (p : FieldMapping → Bool) : FieldMappings → Bool
  | .nil => true
  | .cons f rest => p f && levelAll p rest

/-- Membership at one level of a field list (no recursion into embedded
schemas). -/
def FieldMappings.MemLevel (g : FieldMapping) : FieldMappings → Prop
  | .nil => False
  | .cons f rest => g = f ∨ MemLevel g rest

/-- Resolving an index path against a descriptor tree, the way
`reflect.Value.FieldByIndex` resolves it against the struct: at each level
pick the field whose slot index is the path component; a non-final
component descends into that field's embedded schema.
(Specification-side helper used to state path correctness of `Find`.) -/
def resolvePath : FieldMappings → List Nat → Option FieldMapping
  | _, [] => none
  | fields, i :: rest =>
    match findAtLevel (fun f => f.index == i) fields with
    | none => none
    | some f => if rest.isEmpty then some f else resolvePath f.schemaFields rest

/-- Slot indices are pairwise distinct at every level of the tree, as
`GetMapping` guarantees by construction (each declared field gets its own
slot).  (Specification-side well-formedness helper.) -/
def treeIdxOK : FieldMappings → Bool
  | .nil => true
  | .cons f rest =>
    match f with
    | .mk _ _ _ _ _ _ _ sub =>
      levelAll (fun g => g.index != f.index) rest && treeIdxOK sub && treeIdxOK rest

/-- No structural fields at the top level. -/
def isFlat (fields : FieldMappings) : Bool :=
  levelAll (fun f => !f.HasSchema) fields

/-- Does some leaf field of the tree satisfy the predicate?
(Specification-side helper: "a leaf field anywhere in the tree".) -/
def existsLeaf (p : FieldMapping → Bool) : FieldMappings → Bool
  | .nil => false
  | .cons f rest =>
    match f with
    | .mk _ _ _ _ _ _ hs sub =>
      (if hs then existsLeaf p sub else p f) || existsLeaf p rest

/-! ### Name normalizer (`snakecase`, part_012 lines 952-985)

Strings are modelled as `List Char`; identifiers handled by the engine are
ASCII, where Go's `unicode.IsUpper` / `unicode.IsLower` / `unicode.ToLower`
agree with `Char.isUpper` / `Char.isLower` / `Char.toLower`. -/

/-- Body of `snakecase`: one step per character, carrying the position `i`
and the `prevUpper` flag exactly as the Go loop does.  `nextLower` is
`unicode.IsLower(input[i+1])` for a non-final character and `false` for the
final one (part_012 lines 960-965). -/
def snakecaseAux : List Char → Nat → Bool → List Char
  | [], _, _ => []
  | c :: rest, i, prevUpper =>
    let nextLower := match rest with
      | [] => false
      | c' :: _ => c'.isLower
    if c.isUpper then
      (if i > 0 && !prevUpper then ['_'] else []) ++
      (if nextLower && prevUpper then ['_'] else []) ++
      c.toLower :: snakecaseAux rest (i + 1) true
    else
      c :: snakecaseAux rest (i + 1) false

/-- `snakecase` (part_012 lines 952-985): starts at position `0` with
`prevUpper = false`. -/
def snakecase (input : List Char) : List Char :=
  snakecaseAux input 0 false

/-- `snakecase` lifted to `String`. -/
def snakecaseStr (input : String) : String :=
  ⟨snakecase input.data⟩

/-- The spec's wording of the normalizer rule, written as its own recursion
carrying the previous character (`none` at the first position): an
underscore is inserted before an uppercase letter exactly when it is not
the first character and either the previous character was not uppercase or
the next character is lowercase; every character is lower-cased. -/
def snakecaseRule : List Char → Option Char → List Char
  | [], _ => []
  | c :: rest, prev =>
    let nextLower := match rest with
      | [] => false
      | c' :: _ => c'.isLower
    let prevUpper := match prev with
      | none => false
      | some p => p.isUpper
    let notFirst := match prev with
      | none => false
      | some _ => true
    (if c.isUpper && notFirst && (!prevUpper || nextLower)
      then ['_'] else []) ++
    c.toLower :: snakecaseRule rest (some c)

/-! ### Column formatting helpers (src/schema/columns.go) -/

/-- `Columns.List` (src/schema/columns.go lines 12-14): comma-separated
column list. -/
def ColumnsList (c : List String) : String :=
  String.intercalate ", " c

/-- `Columns.ValueList` (src/schema/columns.go lines 18-24): positional
placeholder list `$start, $(start+1), ...`, one per column. -/
def ValueList (c : List String) (start : Nat) : String :=
  String.intercalate ", "
    ((List.range c.length).map fun i => "$" ++ toString (start + i))

/-- `Columns.AssignmentList` (src/schema/columns.go lines 38-44):
`col1 = $start, col2 = $(start+1), ...`. -/
def AssignmentList (c : List String) (start : Nat) : String :=
  String.intercalate ", "
    (c.enum.map fun p => p.2 ++ " = $" ++ toString (start + p.1))

/-! ### Runtime value model

`reflect.Value`s reaching the value extractor are either a composite
(struct) carrying its ordered field values, or a non-composite value
carrying its reflection kind, its nil flag (meaningful for the nil-able
reference kinds) and an opaque payload. -/

/-- Go reflection kinds the engine branches on (part_012 lines 864-871
switch plus the kinds needed by `reflect.Value.Int`). -/
inductive GoKind where
  | pointer
  | hashmap
  | iface
  | slice
  | function
  | channel
  | intKind
  | stringKind
  | other
deriving DecidableEq, Repr

/-- A nil-able reference kind: the cases of the `switch v.Kind()` in
`Values` (part_012 lines 864-871): Pointer, Map, Interface, Slice, Func,
Chan. -/
def GoKind.isNilable : GoKind → Bool
  | .pointer | .hashmap | .iface | .slice | .function | .channel => true
  | _ => false

/-- A runtime Go value as seen through reflection. -/
inductive GoVal : Type where
  | prim (kind : GoKind) (isNil : Bool) (payload : Nat)
  | strukt (fields : List GoVal)

instance : Inhabited GoVal := ⟨.prim .other false 0⟩

/-- The reflection kind of a value. -/
def GoVal.kind : GoVal → GoKind
  | .prim k _ _ => k
  | .strukt _ => .other

/-- Field values of a composite; empty for a non-composite (the code paths
that reach this on a non-composite discard the result, mirroring
`vals, _ := Values(...)`). -/
def GoVal.structFields : GoVal → List GoVal
  | .strukt l => l
  | .prim _ _ _ => []

/-- `reflect.Value.FieldByIndex`: follow an index path through nested
composites. -/
def getAtPath (v : GoVal) : List Nat → GoVal
  | [] => v
  | i :: rest => getAtPath (v.structFields.getD i default) rest

/-- Writing through an index path (the effect of scanning into the address
returned by `FieldByIndex(...).Addr()`). -/
def setAtPath (v : GoVal) (path : List Nat) (newv : GoVal) : GoVal :=
  match path, v with
  | [], _ => newv
  | i :: rest, .strukt l => .strukt (l.set i (setAtPath (l.getD i default) rest newv))
  | _ :: _, .prim k n p => .prim k n p

/-- The path stays inside composite bounds (so that an address through it
is a real slot of the record). -/
def validPath (v : GoVal) : List Nat → Bool
  | [] => true
  | i :: rest =>
    match v with
    | .strukt l => i < l.length && validPath (l.getD i default) rest
    | .prim _ _ _ => false

/-! ### Value extractor (`Values` and `Addrs`, part_012 lines 808-881) -/

/-- `schema.Values` (part_012 lines 839-881) after the mapping and the
struct value have been obtained: walks the field mappings, skipping
non-writable fields, recursing into embedded schemas, and emitting `none`
(the untyped `nil` appended by the Go code) for a nil value of a nil-able
reference kind and `some v` (the value as-is) otherwise.  The recursive
call's error is discarded in the source (`vals, _ := Values(...)`), so a
non-composite value under a structural field contributes nothing. -/
def Values : FieldMappings → List GoVal → List (Option GoVal)
  | .nil, _ => []
  | .cons f rest, sv =>
    match f with
    | .mk _ _ i _ _ _ hs sub =>
      if !f.IsWriteable then Values rest sv
      else
        let v := sv.getD i default
        if hs then
          (match v with
           | .strukt l => Values sub l
           | .prim _ _ _ => []) ++ Values rest sv
        else
          (match v with
           | .prim k isNil _ => if k.isNilable && isNil then none else some v
           | .strukt _ => some v) :: Values rest sv

/-- `schema.Addrs` (part_012 lines 808-836) with addresses represented as
index paths from the root record: one slot per leaf field, depth-first
over all fields, recursing into embedded schemas in place. -/
def Addrs : FieldMappings → List Nat → List (List Nat)
  | .nil, _ => []
  | .cons f rest, base =>
    match f with
    | .mk _ _ i _ _ _ hs sub =>
      if hs then Addrs sub (base ++ [i]) ++ Addrs rest base
      else (base ++ [i]) :: Addrs rest base

/-- Depth-first enumeration of the runtime values of the writable leaf
fields (specification-side helper used to state what `Values` flattens);
mirrors the source's discarding of the recursive error for a non-composite
value under a structural field. -/
def writableLeafVals : FieldMappings → List GoVal → List GoVal
  | .nil, _ => []
  | .cons f rest, sv =>
    match f with
    | .mk _ _ i _ _ _ hs sub =>
      if !f.IsWriteable then writableLeafVals rest sv
      else
        let v := sv.getD i default
        if hs then
          (match v with
           | .strukt l => writableLeafVals sub l
           | .prim _ _ _ => []) ++ writableLeafVals rest sv
        else v :: writableLeafVals rest sv

/-- A value that is a nil reference: nil-able reflection kind with the nil
flag set (the condition under which `Values` emits the untyped null
marker). -/
def GoVal.isNilRef : GoVal → Bool
  | .prim k isNil _ => k.isNilable && isNil
  | .strukt _ => false

/-! ### Tag parsing (inside `GetMapping`, part_012 lines 724-785) -/

/-- `strings.Trim(s, " ")`: strip leading and trailing space characters. -/
def trimSpaces (s : String) : String :=
  ⟨((s.data.dropWhile (· == ' ')).reverse.dropWhile (· == ' ')).reverse⟩

/-- `strings.Split` with a single-character separator (the engine only
splits on `","` and `"."`): cut at every separator occurrence; the empty
string yields one empty segment. -/
def splitCharAux (sep : Char) : List Char → List Char → List String
  | [], acc => [⟨acc.reverse⟩]
  | c :: rest, acc =>
    if c == sep then ⟨acc.reverse⟩ :: splitCharAux sep rest []
    else splitCharAux sep rest (c :: acc)

/-- `strings.Split(s, sep)` for a one-character `sep`. -/
def splitChar (sep : Char) (s : String) : List String :=
  splitCharAux sep s.data []

/-- `strings.HasPrefix(s, "fk=")`. -/
def startsWithFkEq (s : String) : Bool :=
  match s.data with
  | 'f' :: 'k' :: '=' :: _ => true
  | _ => false

/-- `strings.TrimPrefix(s, "fk=")` under the premise that the three-byte
head matched. -/
def dropFkEq (s : String) : String :=
  ⟨s.data.drop 3⟩

/-- Rebuild a field with `IsReadOnly := true` (`ro` / `readonly`
modifier). -/
def FieldMapping.withReadOnly : FieldMapping → FieldMapping
  | .mk n c i _ pk fk hs sub => .mk n c i true pk fk hs sub

/-- Rebuild a field with `IsPrimaryKey := true` and `IsReadOnly := true`
(first tag segment `id` or `pk`). -/
def FieldMapping.withPKReadOnly : FieldMapping → FieldMapping
  | .mk n c i _ _ fk hs sub => .mk n c i true true fk hs sub

/-- Rebuild a field with the given foreign-key descriptor. -/
def FieldMapping.withFK (fk : Option ForeignKey) : FieldMapping → FieldMapping
  | .mk n c i ro pk _ hs sub => .mk n c i ro pk fk hs sub

/-- One iteration of the modifier loop (part_012 lines 762-783): trim the
segment; `fk=<table>.<column>` attaches a foreign key when the payload
splits in exactly two on `.`; `ro` / `readonly` marks the field
read-only. -/
def applyTagModifier (info : FieldMapping) (rawPart : String) : FieldMapping :=
  let part := trimSpaces rawPart
  if startsWithFkEq part then
    let fkval := trimSpaces (dropFkEq part)
    let ps := splitChar '.' fkval
    if ps.length == 2 then
      info.withFK (some ⟨ps.getD 0 "", ps.getD 1 ""⟩)
    else info
  else if part == "ro" || part == "readonly" then info.withReadOnly
  else info

/-- A field with a non-empty `db` tag (part_012 lines 743-785): the column
is the first trimmed segment; `IsPrimaryKey`/`IsReadOnly` are initialized
from `column == "id"`, then the untrimmed first segment being `id` or `pk`
forces both, and the remaining segments are applied as modifiers in
order. -/
def parseTaggedField (fname : String) (idx : Nat) (dbTag : String) : FieldMapping :=
  let parts := splitChar ',' dbTag
  let column := trimSpaces (parts.getD 0 "")
  let info0 := FieldMapping.leaf fname column idx (column == "id") (column == "id")
  let info1 :=
    if parts.getD 0 "" == "id" || parts.getD 0 "" == "pk" then info0.withPKReadOnly
    else info0
  (parts.drop 1).foldl applyTagModifier info1

/-- A field with no `db` tag (part_012 lines 729-741): column is the
snakecased field name; that name being `id` marks primary-key and
read-only. -/
def untaggedField (fname : String) (idx : Nat) : FieldMapping :=
  let col := snakecaseStr fname
  FieldMapping.leaf fname col idx (col == "id") (col == "id")

/-! ### Descriptors and the CRUD orchestrator (part_014) -/

/-- `schema.StructMapping` (part_012 lines 666-671).  The
`Parent *StructMapping` back-reference is represented by the parent
descriptor's cache key (its table name); `none` models a nil parent. -/
structure StructMapping where
  parent : Option String
  table : String
  typeName : String
  fields : FieldMappings

/-- The observable outcome of `orm.Add` (part_014 lines 259-291): the SQL
string handed to the executor, its argument list, whether it ran as a
single-row query scanning a returned value (`true`) or as a plain command
(`false`), and the record value after the call. -/
structure AddResult where
  sqlExecuted : String
  args : List (Option GoVal)
  returnedScan : Bool
  record : GoVal

/-- The INSERT column list built by `Add`:
`sch.Fields.Writeable().Columns()` (part_014 line 266). -/
def insertColumns (sch : StructMapping) : List String :=
  FieldMappings.Columns (FieldMappings.Writeable sch.fields)

/-- The INSERT statement built by `Add` (part_014 line 269). -/
def insertSql (sch : StructMapping) : String :=
  "INSERT INTO " ++ sch.table ++ " (" ++ ColumnsList (insertColumns sch) ++
    ") VALUES (" ++ ValueList (insertColumns sch) 1 ++ ")"

/-- `orm.Add` (part_014 lines 259-291) with the mapping already obtained
and the database's returned primary-key value supplied as the oracle
`dbId`: builds the INSERT over the writable columns with `schema.Values`
as arguments; if `FindPK` fails with the field-not-found error the
statement runs as a plain command and the record is left untouched;
otherwise the statement gains ` returning <pk column>`, runs as a
single-row query, and the returned value is scanned into the slot at the
primary key's index path. -/
def Add (sch : StructMapping) (rec : GoVal) (dbId : GoVal) :
    Except OrmErr AddResult :=
  let vals := Values sch.fields rec.structFields
  match FieldMappings.FindPK sch.fields with
  | .error .fieldNotFound => .ok ⟨insertSql sch, vals, false, rec⟩
  | .error e => .error e
  | .ok (idf, index) =>
      .ok ⟨insertSql sch ++ " returning " ++ idf.column, vals, true,
           setAtPath rec index dbId⟩

/-- Scan-and-accumulate loop shared by `orm.List` (part_014 lines 148-158)
and `orm.CollectRows` (part_014 lines 546-552): one fresh record per row,
a scan error aborts immediately and discards partial results. -/
def collectLoop {ρ α : Type} (scan : ρ → Except OrmErr α) :
    List ρ → Except OrmErr (List α)
  | [] => .ok []
  | r :: rest =>
    match scan r with
    | .error e => .error e
    | .ok a =>
      match collectLoop scan rest with
      | .error e => .error e
      | .ok tl => .ok (a :: tl)

/-- `orm.List` (part_014 lines 130-159) over the rows the query matched:
every row is scanned and appended; there is no zero-row check, so an empty
result set yields success with an empty list. -/
def ListRows {ρ α : Type} (rows : List ρ) (scan : ρ → Except OrmErr α) :
    Except OrmErr (List α) :=
  collectLoop scan rows

/-- `orm.Get` (part_014 lines 197-221) over the rows the query matched:
`QueryRow` yields the first row, and per `database/sql` semantics `Scan`
on a row backed by an empty result set returns `sql.ErrNoRows`, i.e. the
not-found sentinel `ErrNotFound` (part_014 line 53). -/
def GetRow {ρ α : Type} (rows : List ρ) (scan : ρ → Except OrmErr α) :
    Except OrmErr α :=
  match rows.head? with
  | none => .error .notFound
  | some r => scan r

/-- `orm.CollectRows` (part_014 lines 544-559): scan every row; when the
accumulated item count is zero, fail with `sql.ErrNoRows` (the not-found
sentinel). -/
def CollectRows {ρ α : Type} (rows : List ρ) (scan : ρ → Except OrmErr α) :
    Except OrmErr (List α) :=
  match collectLoop scan rows with
  | .error e => .error e
  | .ok items => if items.length == 0 then .error .notFound else .ok items

/-- Outcome of running a Go function: normal return, error return, or a
runtime panic escaping the function. -/
inductive GoOutcome (α : Type) where
  | ok (a : α)
  | err (e : OrmErr)
  | panicked (msg : String)

/-- `reflect.Value.Int`: defined for values of integer kind only; on any
other kind the Go runtime panics. -/
def goValInt : GoVal → Option Nat
  | .prim .intKind _ p => some p
  | _ => none

/-- `orm.UpdateByID` (part_014 lines 444-469) with the mapping already
obtained: locate the primary key, build
`update <table> set <assignments>`, extract the writable values, read the
primary key's current value via
`reflect.Value.FieldByIndex(indexes).Int()` — which panics when the field
is not of integer kind — and append ` where <pk column> = $<n>` with the
integer value as the final argument. -/
def UpdateByID (sch : StructMapping) (rec : GoVal) :
    GoOutcome (String × List (Option GoVal)) :=
  match FieldMappings.FindPK sch.fields with
  | .error e => .err e
  | .ok (idField, indexes) =>
    let cols := FieldMappings.Columns (FieldMappings.Writeable sch.fields)
    let placeholders := AssignmentList cols 1
    let sql := "update " ++ sch.table ++ " set " ++ placeholders
    let values := Values sch.fields rec.structFields
    match goValInt (getAtPath rec indexes) with
    | none => .panicked "reflect: call of reflect.Value.Int on non-int value"
    | some id =>
      .ok (sql ++ " where " ++ idField.column ++ " = $" ++ toString (cols.length + 1),
           values ++ [some (GoVal.prim .intKind false id)])

/-! ### Type introspector and descriptor cache (part_012 lines 680-790) -/

mutual

/-- A Go type as the introspector sees it after `Reflect`: a struct with a
declared name, an optional `TableName()` capability, and declared fields,
or a non-struct type. -/
inductive GoTy : Type where
  | strukt (name : String) (tableName : Option String) (fields : List GoStructField)
  | nonStruct (kindName : String)

/-- A declared Go struct field: name, anonymous flag, exported flag, the
`db` tag (`""` when absent, as `Tag.Get` returns), and the field's type. -/
inductive GoStructField : Type where
  | mk (name : String) (anonymous : Bool) (exported : Bool) (dbTag : String) (ty : GoTy)

end

/-- The schema cache (`schemaCache`, part_012 line 297): table name to
descriptor.  Represented as an association list; `SaveMapping` overwrites
the entry for an existing key like a Go map assignment. -/
abbrev Cache := List (String × StructMapping)

/-- `schema.Lookup` (part_012 lines 987-991). -/
def lookupCache (c : Cache) (k : String) : Option StructMapping :=
  (c.find? (fun e => e.1 == k)).map (fun e => e.2)

/-- `schema.SaveMapping` (part_012 lines 993-997): Go map assignment. -/
def saveCache (c : Cache) (k : String) (m : StructMapping) : Cache :=
  match c with
  | [] => [(k, m)]
  | (k', m') :: rest =>
    if k' == k then (k, m) :: rest else (k', m') :: saveCache rest k m

/-- The effect of `embeded.Parent = mapping` on the shared cached
descriptor object: the cache entry for the embedded descriptor's table
gets its parent back-reference reassigned. -/
def updateParentAt (c : Cache) (k : String) (p : Option String) : Cache :=
  c.map fun e => if e.1 == k then (e.1, { e.2 with parent := p }) else e

/-- The field-enumeration loop of `GetMapping` (part_012 lines 709-786),
threading the cache, parameterized by the recursive introspection `gm`
(so that the whole introspector is structurally recursive on its fuel).
An exported anonymous field is introspected recursively; the source
discards the recursive error (`embeded, _ := GetMapping(...)`) and
immediately executes `embeded.Parent = mapping`, so a failed recursive
introspection dereferences a nil descriptor and the Go runtime panics; on
success the shared cached descriptor's parent back-reference is reassigned
to the enclosing mapping.  A field tagged `-` is skipped (its slot index
is still consumed); an untagged field and a tagged field are classified by
`untaggedField` / `parseTaggedField`. -/
def processFieldsWith (gm : GoTy → Cache → GoOutcome StructMapping × Cache)
    (parentTable : String) :
    List GoStructField → Nat → Cache → GoOutcome FieldMappings × Cache
  | [], _, cache => (.ok .nil, cache)
  | (.mk fname anon exported dbTag fty) :: rest, i, cache =>
    if anon && exported then
      match gm fty cache with
      | (.ok embeded, cache1) =>
        let cache2 := updateParentAt cache1 embeded.table (some parentTable)
        let fld := FieldMapping.mk fname "" i false false none true embeded.fields
        (match processFieldsWith gm parentTable rest (i + 1) cache2 with
         | (.ok fs, c) => (.ok (.cons fld fs), c)
         | other => other)
      | (.err _, cache1) => (.panicked "nil pointer dereference", cache1)
      | (.panicked s, cache1) => (.panicked s, cache1)
    else if dbTag == "-" then
      processFieldsWith gm parentTable rest (i + 1) cache
    else
      let fld :=
        if dbTag == "" then untaggedField fname i
        else parseTaggedField fname i dbTag
      match processFieldsWith gm parentTable rest (i + 1) cache with
      | (.ok fs, c) => (.ok (.cons fld fs), c)
      | other => other

/-- `schema.GetMapping` (part_012 lines 680-790) as a fuel-indexed state
transformer over the cache.  The fuel bounds the embedding depth; callers
supply fuel larger than the nesting depth (exhaustion returns the
invalid-type error, which never fires at sufficient fuel).  A non-struct
input fails `Reflect` with the invalid-type error.  A type exposing
`TableName()` is looked up under that name first; the `table` local is not
assigned in that branch, so on a miss the mapping is computed and cached
under the snakecased type name.  Field analysis is `processFieldsWith`
over the one-step-less-fuel introspection; completed descriptors are
published with `SaveMapping` before being returned, with a nil parent. -/
def getMapping : Nat → GoTy → Cache → GoOutcome StructMapping × Cache
  | 0, _, cache => (.err .invalidType, cache)
  | fuel + 1, ty, cache =>
    match ty with
    | .nonStruct _ => (.err .invalidType, cache)
    | .strukt tyName tn flds =>
      let recordHit := match tn with
        | some t => lookupCache cache t
        | none => none
      match recordHit with
      | some sch => (.ok sch, cache)
      | none =>
        let table := snakecaseStr tyName
        match lookupCache cache table with
        | some m => (.ok m, cache)
        | none =>
          match processFieldsWith (getMapping fuel) table flds 0 cache with
          | (.ok fieldList, cache1) =>
            let m : StructMapping := ⟨none, table, tyName, fieldList⟩
            (.ok m, saveCache cache1 table m)
          | (.err e, cache1) => (.err e, cache1)
          | (.panicked s, cache1) => (.panicked s, cache1)

/-- Cache evolution preserves the core (table, type, fields) of every
entry already present: only the parent back-reference may differ, and
entries are never dropped. -/
def CachePres (c c' : Cache) : Prop :=
  ∀ t m, lookupCache c t = some m →
    ∃ m', lookupCache c' t = some m' ∧
      m'.table = m.table ∧ m'.typeName = m.typeName ∧ m'.fields = m.fields

/-! ### Concrete record types used as test inputs -/

/-- Go type `type A struct { ID int64; Name string }`. -/
def tyA : GoTy :=
  .strukt "A" none
    [.mk "ID" false true "" (.nonStruct "int64"),
     .mk "Name" false true "" (.nonStruct "string")]

/-- Go type `type B struct { A; Age int }` — embeds `A`. -/
def tyB : GoTy :=
  .strukt "B" none [.mk "A" true true "" tyA, .mk "Age" false true "" (.nonStruct "int")]

/-- The cache state after introspecting `A` on an empty cache. -/
def cacheAfterA : Cache := (getMapping 3 tyA []).2

/-- Go type `type Inner struct { Name string }` — no primary-key field. -/
def tyInner : GoTy := .strukt "Inner" none [.mk "Name" false true "" (.nonStruct "string")]

/-- Go type `type Outer struct { Inner; ID int64 }` — embeds the pk-less
`Inner` first, then declares its primary key. -/
def tyOuter : GoTy :=
  .strukt "Outer" none
    [.mk "Inner" true true "" tyInner, .mk "ID" false true "" (.nonStruct "int64")]

/-- The descriptor `GetMapping` produces for `tyOuter`. -/
def outerMapping : StructMapping :=
  ⟨none, "outer", "Outer",
   .cons (FieldMapping.mk "Inner" "" 0 false false none true
      (.cons (FieldMapping.leaf "Name" "name" 0 false false) .nil))
     (.cons (FieldMapping.leaf "ID" "id" 1 true true) .nil)⟩

/-- A runtime `Outer` value: `Outer{Inner{Name: s7}, ID: 0}`. -/
def outerRec : GoVal :=
  .strukt [.strukt [.prim .stringKind false 7], .prim .intKind false 0]

/-- Go type `type T struct { MyString }` where `MyString` is a non-struct
(string) type: an exported anonymous field of non-composite type. -/
def tyEmbedsNonStruct : GoTy :=
  .strukt "T" none [.mk "MyString" true true "" (.nonStruct "string")]

/-- A descriptor whose primary key is a string column tagged `pk`
(`Key string` tagged `db:"key,pk"`, plus a plain `Name` column). -/
def stringPkMapping : StructMapping :=
  ⟨none, "accounts", "Account",
   .cons (FieldMapping.leaf "Key" "key" 0 true true)
     (.cons (FieldMapping.leaf "Name" "name" 1 false false) .nil)⟩

/-- A runtime record for `stringPkMapping` whose `Key` field holds a
string value. -/
def stringPkRec : GoVal :=
  .strukt [.prim .stringKind false 3, .prim .stringKind false 4]

/-- A descriptor tree whose first entry is a structural field over a
non-matching subtree and whose second entry is a leaf with column `b`. -/
def branchThenLeaf : FieldMappings :=
  .cons (FieldMapping.node "E" 0 (.cons (FieldMapping.leaf "A" "a" 0 false false) .nil))
    (.cons (FieldMapping.leaf "B" "b" 1 false false) .nil)

/-! ## Helper lemmas -/

@[simp] theorem FieldMappings.nil_append (ys : FieldMappings) :
    FieldMappings.append .nil ys = ys := rfl

@[simp] theorem FieldMappings.cons_append (f : FieldMapping) (xs ys : FieldMappings) :
    FieldMappings.append (.cons f xs) ys = .cons f (FieldMappings.append xs ys) := rfl

theorem FieldMappings.append_assoc : ∀ (a b c : FieldMappings),
    FieldMappings.append (FieldMappings.append a b) c
      = FieldMappings.append a (FieldMappings.append b c)
  | .nil, _, _ => rfl
  | .cons f rest, b, c => by
    simp only [FieldMappings.cons_append]
    rw [FieldMappings.append_assoc rest b c]

theorem Writeable_append : ∀ (xs ys : FieldMappings),
    FieldMappings.Writeable (FieldMappings.append xs ys) =
      FieldMappings.append (FieldMappings.Writeable xs) (FieldMappings.Writeable ys)
  | .nil, ys => rfl
  | .cons f rest, ys => by
    cases f with
    | mk n c i ro pk fk hs sub =>
      simp only [FieldMappings.cons_append, FieldMappings.Writeable]
      split
      · exact Writeable_append rest ys
      · split
        · rw [Writeable_append rest ys, FieldMappings.append_assoc]
        · rw [Writeable_append rest ys]; rfl

theorem Columns_append : ∀ (xs ys : FieldMappings),
    FieldMappings.Columns (FieldMappings.append xs ys) =
      FieldMappings.Columns xs ++ FieldMappings.Columns ys
  | .nil, ys => rfl
  | .cons f rest, ys => by
    cases f with
    | mk n c i ro pk fk hs sub =>
      simp only [FieldMappings.cons_append, FieldMappings.Columns]
      split
      · rw [Columns_append rest ys, List.append_assoc]
      · rw [Columns_append rest ys]; rfl

theorem Values_append : ∀ (xs ys : FieldMappings) (sv : List GoVal),
    Values (FieldMappings.append xs ys) sv = Values xs sv ++ Values ys sv
  | .nil, ys, sv => rfl
  | .cons f rest, ys, sv => by
    cases f with
    | mk n c i ro pk fk hs sub =>
      simp only [FieldMappings.cons_append, Values]
      split
      · exact Values_append rest ys sv
      · split
        · rw [Values_append rest ys sv, List.append_assoc]
        · rw [Values_append rest ys sv]; rfl

theorem Addrs_append : ∀ (xs ys : FieldMappings) (base : List Nat),
    Addrs (FieldMappings.append xs ys) base = Addrs xs base ++ Addrs ys base
  | .nil, ys, base => rfl
  | .cons f rest, ys, base => by
    cases f with
    | mk n c i ro pk fk hs sub =>
      simp only [FieldMappings.cons_append, Addrs]
      split
      · rw [Addrs_append rest ys base, List.append_assoc]
      · rw [Addrs_append rest ys base]; rfl

theorem getAtPath_setAtPath (v : GoVal) (path : List Nat) (x : GoVal)
    (hv : validPath v path = true) :
    getAtPath (setAtPath v path x) path = x := by
  induction path generalizing v with
  | nil => rfl
  | cons i rest ih =>
    cases v with
    | prim k n p => simp [validPath] at hv
    | strukt l =>
      simp only [validPath, Bool.and_eq_true, decide_eq_true_eq] at hv
      obtain ⟨hi, hrest⟩ := hv
      show getAtPath ((GoVal.strukt (l.set i (setAtPath (l.getD i default) rest x))).structFields.getD i default) rest = x
      have hgd : (l.set i (setAtPath (l.getD i default) rest x)).getD i default
          = setAtPath (l.getD i default) rest x := by
        rw [List.getD_eq_getElem?_getD, List.getElem?_set_self hi]
        rfl
      rw [GoVal.structFields, hgd]
      exact ih _ hrest

/-! ## Claim C3: zero-row fetch outcomes -/

/-- C3 counterexample: orm.List over an empty result set returns success
with an empty list, not the not-found sentinel the claim asserts for every
multi-row fetch. -/
theorem listRows_empty_succeeds :
    ListRows ([] : List Unit) (fun _ => .ok (0 : Nat)) = .ok [] ∧
    ListRows ([] : List Unit) (fun _ => .ok (0 : Nat)) ≠ .error .notFound :=
  ⟨rfl, by simp [ListRows, collectLoop]⟩

/-- C3 (amended): on zero matching rows, the single-row fetch Get signals
the not-found sentinel and the collection helper CollectRows signals the
same sentinel (a successful CollectRows always carries a nonempty list),
but the multi-row fetch List succeeds with an empty list. -/
theorem zeroRowFetchOutcomes :
    ∀ {ρ α : Type} (scan : ρ → Except OrmErr α),
      GetRow ([] : List ρ) scan = .error .notFound ∧
      CollectRows ([] : List ρ) scan = .error .notFound ∧
      ListRows ([] : List ρ) scan = .ok ([] : List α) ∧
      ∀ (rows : List ρ) (items : List α),
        CollectRows rows scan = .ok items → items ≠ [] := by
  intro ρ α scan
  refine ⟨rfl, rfl, rfl, ?_⟩
  intro rows items h
  unfold CollectRows at h
  rcases hc : collectLoop scan rows with e | its
  · rw [hc] at h; exact absurd h (by simp)
  · rw [hc] at h
    dsimp only at h
    by_cases hl : its.length = 0
    · simp [hl] at h
    · have hlen : (its.length == 0) = false := by simpa using hl
      rw [hlen] at h
      simp only [Bool.false_eq_true, if_false, Except.ok.injEq] at h
      intro hnil
      apply hl
      rw [h, hnil]
      rfl

/-- C3 witness: the amended theorem applied at an empty result set and at
a one-row result set. -/
theorem zeroRowFetchOutcomes_witness :
    GetRow ([] : List Unit) (fun _ => .ok (0 : Nat)) = .error .notFound ∧
    ([0] : List Nat) ≠ [] :=
  ⟨(zeroRowFetchOutcomes (fun _ => .ok 0)).1,
   (zeroRowFetchOutcomes (fun _ => .ok 0)).2.2.2 [()] [0] rfl⟩

/-! ## Claim C5: panic escaping introspection -/

/-- C5: evaluating the introspector at a struct whose declared field is an
exported anonymous field of non-composite type: the recursive
introspection's error is discarded and the nil descriptor dereferenced, so
a nil-pointer panic escapes GetMapping instead of the invalid-type error
the specification requires at the normalization boundary. -/
theorem getMapping_panics_on_nonstruct_embed :
    getMapping 3 tyEmbedsNonStruct [] = (.panicked "nil pointer dereference", []) ∧
    (getMapping 3 tyEmbedsNonStruct []).1 ≠ .err .invalidType := by
  refine ⟨rfl, ?_⟩
  intro h
  have h2 : (GoOutcome.panicked "nil pointer dereference" : GoOutcome StructMapping)
      = .err .invalidType := h
  exact absurd h2 (by simp)

/-! ## Claim C2: search order and failure of Find -/

/-- C2 counterexample: a leaf with column b exists in the tree, yet Find
(via FindByColumn) fails with the field-not-found error, because the first
structural field's subtree contains no match and the search aborts without
visiting the later sibling. -/
theorem find_misses_later_sibling :
    existsLeaf (fun f => f.column == "b") branchThenLeaf = true ∧
    FieldMappings.FindByColumn branchThenLeaf "b" = .error .fieldNotFound :=
  ⟨rfl, rfl⟩

/-! ## Claim C4: cache immutability -/

/-- C4 counterexample: after introspecting A, the cached descriptor for
table a has a nil parent; introspecting B, which embeds A, reassigns the
cached descriptor's parent back-reference, so a later lookup of table a
returns a changed mapping with no cache reset in between. -/
theorem cached_parent_reassigned_by_embedding :
    (lookupCache cacheAfterA "a").map StructMapping.parent = some none ∧
    (lookupCache ((getMapping 3 tyB cacheAfterA).2) "a").map StructMapping.parent
      = some (some "b") :=
  ⟨rfl, rfl⟩

/-! ## Claim C1: insert and identity propagation -/

/-- C1 counterexample: the record type Outer has a primary-key leaf in its
descriptor tree (produced by GetMapping from the Go type), yet Add runs
the INSERT as a plain command with no returning clause and leaves the
record untouched, because FindPK aborts at the pk-less embedded schema. -/
theorem add_plain_despite_pk :
    (getMapping 3 tyOuter []).1 = .ok outerMapping ∧
    existsLeaf FieldMapping.isPrimaryKey outerMapping.fields = true ∧
    Add outerMapping outerRec (GoVal.prim .intKind false 42) =
      .ok ⟨"INSERT INTO outer (name) VALUES ($1)",
           [some (.prim .stringKind false 7)], false, outerRec⟩ :=
  ⟨rfl, rfl, rfl⟩

/-- C1 (amended): whenever the primary-key search FindPK succeeds, Add
executes the INSERT over the writable columns extended with a returning
clause for the pk column as a single-row query, with the writable values
as arguments, and scans the returned value into the slot at the pk's index
path, so the caller observes the record's primary key populated; whenever
FindPK fails with the field-not-found error — which includes some types
that do have a primary-key field, when it follows an embedded schema
without one — the same INSERT executes as a plain command with no returned
value and the record is untouched. -/
theorem add_identity_propagation :
    ∀ (sch : StructMapping) (rec dbId : GoVal),
      (∀ f path, FieldMappings.FindPK sch.fields = .ok (f, path) →
        Add sch rec dbId = .ok ⟨insertSql sch ++ " returning " ++ f.column,
          Values sch.fields rec.structFields, true, setAtPath rec path dbId⟩ ∧
        (validPath rec path = true →
          getAtPath (setAtPath rec path dbId) path = dbId)) ∧
      (FieldMappings.FindPK sch.fields = .error .fieldNotFound →
        Add sch rec dbId =
          .ok ⟨insertSql sch, Values sch.fields rec.structFields, false, rec⟩) := by
  intro sch rec dbId
  constructor
  · intro f path h
    refine ⟨?_, fun hv => getAtPath_setAtPath rec path dbId hv⟩
    simp [Add, h]
  · intro h
    simp [Add, h]

/-- C1 witness: the amended theorem applied at the string-pk record, whose
FindPK succeeds at path [0]. -/
theorem add_identity_propagation_witness :
    Add stringPkMapping stringPkRec (GoVal.prim .intKind false 9) =
      .ok ⟨insertSql stringPkMapping ++ " returning " ++
             (FieldMapping.leaf "Key" "key" 0 true true).column,
           Values stringPkMapping.fields stringPkRec.structFields, true,
           setAtPath stringPkRec [0] (GoVal.prim .intKind false 9)⟩ ∧
    getAtPath (setAtPath stringPkRec [0] (GoVal.prim .intKind false 9)) [0]
      = GoVal.prim .intKind false 9 :=
  ⟨((add_identity_propagation stringPkMapping stringPkRec
      (GoVal.prim .intKind false 9)).1
        (FieldMapping.leaf "Key" "key" 0 true true) [0] rfl).1,
   ((add_identity_propagation stringPkMapping stringPkRec
      (GoVal.prim .intKind false 9)).1
        (FieldMapping.leaf "Key" "key" 0 true true) [0] rfl).2 rfl⟩

/-! ## Claim C6: readonly-tagged field classification -/

/-- C6: a field tagged db:"foo,readonly" parses to a read-only non-pk leaf
with column foo; in any field list containing it, it is dropped from the
Writeable list and contributes nothing to the Writable-values output or to
the INSERT column list built by Add (insertColumns), while the SELECT
column list (Columns over all fields) contains foo and the Scan-target
list (Addrs) contains its slot. -/
theorem readonly_tag_scenario :
    ∀ (fname : String) (idx : Nat) (pre post : FieldMappings)
      (sv : List GoVal) (base : List Nat),
      parseTaggedField fname idx "foo,readonly"
        = FieldMapping.mk fname "foo" idx true false none false .nil ∧
      FieldMappings.Writeable
          (FieldMappings.append pre (.cons (parseTaggedField fname idx "foo,readonly") post))
        = FieldMappings.append (FieldMappings.Writeable pre) (FieldMappings.Writeable post) ∧
      Values (FieldMappings.append pre (.cons (parseTaggedField fname idx "foo,readonly") post)) sv
        = Values pre sv ++ Values post sv ∧
      (∀ par tbl tn,
        insertColumns ⟨par, tbl, tn,
            FieldMappings.append pre (.cons (parseTaggedField fname idx "foo,readonly") post)⟩
          = FieldMappings.Columns (FieldMappings.Writeable pre)
              ++ FieldMappings.Columns (FieldMappings.Writeable post)) ∧
      FieldMappings.Columns
          (FieldMappings.append pre (.cons (parseTaggedField fname idx "foo,readonly") post))
        = FieldMappings.Columns pre ++ "foo" :: FieldMappings.Columns post ∧
      Addrs (FieldMappings.append pre (.cons (parseTaggedField fname idx "foo,readonly") post)) base
        = Addrs pre base ++ (base ++ [idx]) :: Addrs post base := by
  intro fname idx pre post sv base
  have hf : parseTaggedField fname idx "foo,readonly"
      = FieldMapping.mk fname "foo" idx true false none false .nil := rfl
  rw [hf]
  have hw : FieldMappings.Writeable
      (FieldMappings.append pre
        (.cons (FieldMapping.mk fname "foo" idx true false none false .nil) post))
    = FieldMappings.append (FieldMappings.Writeable pre) (FieldMappings.Writeable post) := by
    rw [Writeable_append]
    rfl
  refine ⟨rfl, hw, ?_, ?_, ?_, ?_⟩
  · rw [Values_append]
    rfl
  · intro par tbl tn
    show FieldMappings.Columns (FieldMappings.Writeable _) = _
    rw [hw, Columns_append]
  · rw [Columns_append]
    rfl
  · rw [Addrs_append]
    rfl

/-! ## Claim C8: embedded primary-key index path -/

/-- C8: for a top-level composite C embedding B, which embeds A, which
declares the primary key as its second field (its first field being a
non-pk leaf), with B the first field of C and A the first field of B,
FindPK returns the index path [0, 0, 1]: one slot index per nesting
level. -/
theorem findpk_embedded_path :
    ∀ (nB nA : String) (a0 f1 : FieldMapping) (restB restC : FieldMappings),
      a0.HasSchema = false → a0.isPrimaryKey = false →
      f1.isPrimaryKey = true → f1.index = 1 →
      FieldMappings.FindPK
          (.cons (FieldMapping.node nB 0
            (.cons (FieldMapping.node nA 0 (.cons a0 (.cons f1 .nil))) restB)) restC)
        = .ok (f1, [0, 0, 1]) := by
  intro nB nA a0 f1 restB restC h1 h2 h3 h4
  cases a0 with
  | mk an ac ai aro apk afk ahs asub =>
    cases f1 with
    | mk bn bc bi bro bpk bfk bhs bsub =>
      simp only [FieldMapping.HasSchema] at h1
      simp only [FieldMapping.isPrimaryKey] at h2 h3
      simp only [FieldMapping.index] at h4
      subst h1; subst h2; subst h3; subst h4
      rfl

/-- C8 witness: the theorem applied at the concrete A/B/C embedding with
the pk being A's second declared field. -/
theorem findpk_embedded_path_witness :
    FieldMappings.FindPK
        (.cons (FieldMapping.node "B" 0
          (.cons (FieldMapping.node "A" 0
            (.cons (FieldMapping.leaf "Name" "name" 0 false false)
              (.cons (FieldMapping.leaf "ID" "id" 1 true true) .nil))) .nil)) .nil)
      = .ok (FieldMapping.leaf "ID" "id" 1 true true, [0, 0, 1]) :=
  findpk_embedded_path "B" "A" (FieldMapping.leaf "Name" "name" 0 false false)
    (FieldMapping.leaf "ID" "id" 1 true true) .nil .nil rfl rfl rfl rfl

/-! ## Claim C10: UpdateByID and non-integer primary keys -/

/-- C10: UpdateByID reads the primary key's current value through an
integer conversion (reflect Int) of the field located by the pk's index
path: when that value is of integer kind the update statement and argument
list are produced, and when it is of any other kind (e.g. a string column
tagged pk) UpdateByID panics instead of returning an error. -/
theorem updateByID_pk_int_conversion :
    ∀ (sch : StructMapping) (rec : GoVal) (f : FieldMapping) (path : List Nat),
      FieldMappings.FindPK sch.fields = .ok (f, path) →
      (goValInt (getAtPath rec path) = none →
        UpdateByID sch rec
          = .panicked "reflect: call of reflect.Value.Int on non-int value") ∧
      (∀ n, goValInt (getAtPath rec path) = some n →
        UpdateByID sch rec = .ok ("update " ++ sch.table ++ " set "
            ++ AssignmentList (FieldMappings.Columns (FieldMappings.Writeable sch.fields)) 1
            ++ " where " ++ f.column ++ " = $"
            ++ toString ((FieldMappings.Columns (FieldMappings.Writeable sch.fields)).length + 1),
          Values sch.fields rec.structFields ++ [some (GoVal.prim .intKind false n)])) := by
  intro sch rec f path h
  constructor
  · intro h2
    simp [UpdateByID, h, h2]
  · intro n h2
    simp [UpdateByID, h, h2]

/-- C10 witness: the theorem applied at the string-pk record, where the
integer conversion is undefined and UpdateByID panics. -/
theorem updateByID_pk_int_conversion_witness :
    UpdateByID stringPkMapping stringPkRec
      = .panicked "reflect: call of reflect.Value.Int on non-int value" :=
  (updateByID_pk_int_conversion stringPkMapping stringPkRec
    (FieldMapping.leaf "Key" "key" 0 true true) [0] rfl).1 rfl

/-! ## Claim C7: null markers for nil reference values -/

/-- C7: the Writable-values output is exactly the depth-first enumeration
of the writable leaf values with the null-marker map applied: a value of
nil-able reference kind that is nil is emitted as the explicit null marker
(none, the untyped Go nil), and every other value is emitted as-is. -/
theorem values_null_marker : ∀ (fields : FieldMappings) (sv : List GoVal),
    Values fields sv = (writableLeafVals fields sv).map
      (fun v => if v.isNilRef then none else some v)
  | .nil, _ => rfl
  | .cons f rest, sv => by
    cases f with
    | mk n c i ro pk fk hs sub =>
      simp only [Values, writableLeafVals]
      split
      · exact values_null_marker rest sv
      · split
        · rw [List.map_append, values_null_marker rest sv]
          congr 1
          cases sv.getD i default with
          | prim k isNil p => rfl
          | strukt l => exact values_null_marker sub l
        · rw [values_null_marker rest sv]
          cases hv : sv.getD i default with
          | prim k isNil p => simp [GoVal.isNilRef]
          | strukt l => simp [GoVal.isNilRef]

/-! ## Claim C9: the name normalizer -/

theorem toLower_eq_self_of_not_upper (c : Char) (h : c.isUpper = false) :
    c.toLower = c := by
  unfold Char.toLower
  rw [if_neg]
  intro hc
  rw [Char.isUpper] at h
  obtain ⟨h65, h90⟩ := hc
  have hv65 : (65 : UInt32) ≤ c.val := by
    rw [UInt32.le_def]
    simpa [Char.toNat, UInt32.toNat] using h65
  have hv90 : c.val ≤ (90 : UInt32) := by
    rw [UInt32.le_def]
    simpa [Char.toNat, UInt32.toNat] using h90
  simp [hv65, hv90] at h

theorem snakecaseAux_eq_rule : ∀ (input : List Char) (i : Nat) (prev : Option Char),
    (i = 0 ↔ prev = none) →
    snakecaseAux input i (match prev with | none => false | some p => p.isUpper)
      = snakecaseRule input prev
  | [], _, _, _ => rfl
  | c :: rest, i, prev, hiff => by
    have hrec : ∀ b, c.isUpper = b →
        snakecaseAux rest (i + 1) b = snakecaseRule rest (some c) := by
      intro b hb
      have hr : snakecaseAux rest (i + 1) c.isUpper = snakecaseRule rest (some c) :=
        snakecaseAux_eq_rule rest (i + 1) (some c) (by simp)
      rwa [hb] at hr
    simp only [snakecaseAux, snakecaseRule]
    by_cases hc : c.isUpper = true
    · cases prev with
      | none =>
        have hi : i = 0 := hiff.mpr rfl
        subst hi
        simp [hc, hrec true hc]
      | some p =>
        have hi : i ≠ 0 := fun h0 => Option.noConfusion (hiff.mp h0)
        have hipos : 0 < i := Nat.pos_of_ne_zero hi
        by_cases hp : p.isUpper = true
        · simp [hc, hp, hrec true hc, hipos]
        · have hpf : p.isUpper = false := by simpa using hp
          simp [hc, hpf, hrec true hc, hipos]
    · have hcf : c.isUpper = false := by simpa using hc
      rw [toLower_eq_self_of_not_upper c hcf] at *
      simp [hcf, hrec false hcf, toLower_eq_self_of_not_upper c hcf]

/-! Helper lemmas for the Find search contract. -/

theorem levelAll_mem : ∀ (p : FieldMapping → Bool) (fields : FieldMappings)
    (g : FieldMapping), levelAll p fields = true →
    FieldMappings.MemLevel g fields → p g = true
  | p, .nil, g, _, hmem => hmem.elim
  | p, .cons f rest, g, hall, hmem => by
    simp only [levelAll, Bool.and_eq_true] at hall
    cases hmem with
    | inl h => exact h ▸ hall.1
    | inr h => exact levelAll_mem p rest g hall.2 h

/-- C9: the name normalizer agrees with the spec's rule — an underscore is
inserted before an uppercase letter exactly when it is not the first
character and either the previous character was not uppercase or the next
character is lowercase, and everything is lower-cased — and maps the
spec's examples ID, UserID, VerifySSLExpiry, camelCaseABCdef and CreatedAt
to id, user_id, verify_ssl_expiry, camel_case_ab_cdef and created_at. -/
theorem snakecase_spec :
    (∀ (input : List Char), snakecase input = snakecaseRule input none) ∧
    snakecaseStr "ID" = "id" ∧
    snakecaseStr "UserID" = "user_id" ∧
    snakecaseStr "VerifySSLExpiry" = "verify_ssl_expiry" ∧
    snakecaseStr "camelCaseABCdef" = "camel_case_ab_cdef" ∧
    snakecaseStr "CreatedAt" = "created_at" :=
  ⟨fun input => snakecaseAux_eq_rule input 0 none (by simp),
   rfl, rfl, rfl, rfl, rfl⟩

/-! ## Claim C2 (amended): the Find search contract -/

theorem resolvePath_cons_skip (f : FieldMapping) (rest : FieldMappings)
    (j : Nat) (tail : List Nat) (hne : (f.index == j) = false) :
    resolvePath (.cons f rest) (j :: tail) = resolvePath rest (j :: tail) := by
  simp only [resolvePath, findAtLevel, hne, Bool.false_eq_true, if_false]

theorem find_sound : ∀ (fields : FieldMappings) (p : FieldMapping → Bool)
    (g : FieldMapping) (path : List Nat),
    treeIdxOK fields = true →
    FieldMappings.Find fields p = .ok (g, path) →
    p g = true ∧ resolvePath fields path = some g ∧
      ∃ f0 tail, FieldMappings.MemLevel f0 fields ∧ path = f0.index :: tail
  | .nil, p, g, path, _, h => by simp [FieldMappings.Find] at h
  | .cons f rest, p, g, path, hok, h => by
    cases f with
    | mk n c i ro pk fk hs sub =>
      simp only [treeIdxOK, Bool.and_eq_true] at hok
      obtain ⟨⟨hdist, hsub⟩, hrest⟩ := hok
      simp only [FieldMappings.Find] at h
      by_cases hp : p (.mk n c i ro pk fk hs sub) = true
      · rw [if_pos hp] at h
        simp only [Except.ok.injEq, Prod.mk.injEq] at h
        obtain ⟨hg, hpath⟩ := h
        subst hg; subst hpath
        refine ⟨hp, ?_, .mk n c i ro pk fk hs sub, [], Or.inl rfl, rfl⟩
        simp [resolvePath, findAtLevel]
      · rw [if_neg hp] at h
        by_cases hhs : hs = true
        · rw [if_pos hhs] at h
          rcases hsubF : FieldMappings.Find sub p with e | gp
          · rw [hsubF] at h; simp at h
          · obtain ⟨g', idxs⟩ := gp
            rw [hsubF] at h
            simp only [Except.ok.injEq, Prod.mk.injEq] at h
            obtain ⟨rfl, hpath⟩ := h
            obtain ⟨hpg, hres, f0', tail', hmem', hidxs⟩ :=
              find_sound sub p g' idxs hsub hsubF
            refine ⟨hpg, ?_, .mk n c i ro pk fk hs sub, idxs, Or.inl rfl, hpath.symm⟩
            subst hpath
            have hne : idxs.isEmpty = false := by
              rw [hidxs]; rfl
            simp only [resolvePath, findAtLevel, FieldMapping.index, beq_self_eq_true,
              if_true, hne, FieldMapping.schemaFields, Bool.false_eq_true, if_false]
            exact hres
        · rw [if_neg hhs] at h
          obtain ⟨hpg, hres, f0, tail, hmem, hpath⟩ := find_sound rest p g path hrest h
          refine ⟨hpg, ?_, f0, tail, Or.inr hmem, hpath⟩
          subst hpath
          have hne0 : (f0.index != i) = true := by
            have := levelAll_mem _ rest f0 hdist hmem
            simpa using this
          have hne : ((FieldMapping.mk n c i ro pk fk hs sub).index == f0.index) = false := by
            have hii : (FieldMapping.mk n c i ro pk fk hs sub).index = i := rfl
            rw [hii, beq_eq_false_iff_ne]
            simp only [bne_iff_ne, ne_eq] at hne0
            exact fun hEq => hne0 hEq.symm
          rw [resolvePath_cons_skip _ _ _ _ hne]
          exact hres

theorem find_flat : ∀ (fields : FieldMappings) (p : FieldMapping → Bool),
    isFlat fields = true →
    ((FieldMappings.Find fields p = .error .fieldNotFound)
      ↔ levelAll (fun f => !p f) fields = true)
  | .nil, p, _ => by simp [FieldMappings.Find, levelAll]
  | .cons f rest, p, hflat => by
    cases f with
    | mk n c i ro pk fk hs sub =>
      simp only [isFlat, levelAll, Bool.and_eq_true, FieldMapping.HasSchema,
        Bool.not_eq_true'] at hflat
      obtain ⟨hhs, hrest⟩ := hflat
      subst hhs
      simp only [FieldMappings.Find, Bool.false_eq_true, if_false, levelAll]
      by_cases hp : p (.mk n c i ro pk fk false sub) = true
      · rw [if_pos hp]
        simp [hp]
      · rw [if_neg hp]
        have hpf : p (.mk n c i ro pk fk false sub) = false := by simpa using hp
        rw [find_flat rest p hrest]
        simp [hpf]

theorem find_abort : ∀ (pre : FieldMappings) (f : FieldMapping)
    (post : FieldMappings) (p : FieldMapping → Bool),
    levelAll (fun g => !g.HasSchema && !p g) pre = true →
    p f = false → f.HasSchema = true →
    FieldMappings.Find f.schemaFields p = .error .fieldNotFound →
    FieldMappings.Find (FieldMappings.append pre (.cons f post)) p
      = .error .fieldNotFound
  | .nil, f, post, p, _, hpf, hhs, hsub => by
    cases f with
    | mk n c i ro pk fk hs sub =>
      simp only [FieldMapping.HasSchema] at hhs
      subst hhs
      simp only [FieldMapping.schemaFields] at hsub
      simp only [FieldMappings.nil_append, FieldMappings.Find, hpf,
        Bool.false_eq_true, if_false, if_true, hsub]
  | .cons g pre', f, post, p, hall, hpf, hhs, hsub => by
    cases g with
    | mk gn gc gi gro gpk gfk ghs gsub =>
      simp only [levelAll, Bool.and_eq_true, FieldMapping.HasSchema,
        Bool.not_eq_true'] at hall
      obtain ⟨⟨hghs, hgp⟩, hall'⟩ := hall
      subst hghs
      simp only [FieldMappings.cons_append, FieldMappings.Find, hgp,
        Bool.false_eq_true, if_false]
      exact find_abort pre' f post p hall' hpf hhs hsub

/-- C2 (amended): on a well-formed descriptor tree a successful Find
returns a field satisfying the predicate together with an index path that
resolves to that field; on a field list with no structural fields, Find
fails with the field-not-found error exactly when no field satisfies the
predicate; but when the first structural field is reached and neither it
nor its subtree matches, the search aborts with the field-not-found error
without visiting subsequent siblings, so in general failure does not imply
that no matching leaf exists in the tree. -/
theorem find_search_contract :
    (∀ (fields : FieldMappings) (p : FieldMapping → Bool) (g : FieldMapping) (path : List Nat),
      treeIdxOK fields = true →
      FieldMappings.Find fields p = .ok (g, path) →
      p g = true ∧ resolvePath fields path = some g) ∧
    (∀ (fields : FieldMappings) (p : FieldMapping → Bool),
      isFlat fields = true →
      ((FieldMappings.Find fields p = .error .fieldNotFound)
        ↔ levelAll (fun f => !p f) fields = true)) ∧
    (∀ (pre : FieldMappings) (f : FieldMapping) (post : FieldMappings) (p : FieldMapping → Bool),
      levelAll (fun g => !g.HasSchema && !p g) pre = true →
      p f = false → f.HasSchema = true →
      FieldMappings.Find f.schemaFields p = .error .fieldNotFound →
      FieldMappings.Find (FieldMappings.append pre (.cons f post)) p
        = .error .fieldNotFound) :=
  ⟨fun fields p g path h1 h2 =>
      ⟨(find_sound fields p g path h1 h2).1, (find_sound fields p g path h1 h2).2.1⟩,
   find_flat, find_abort⟩

/-- C2 witness: the contract applied at a tree whose primary key sits
inside an embedded schema (path resolution), at a flat list with no match
(failure iff no match), and at the branch-then-leaf tree (abort before the
matching sibling). -/
theorem find_search_contract_witness :
    ((FieldMapping.leaf "ID" "id" 0 true true).isPrimaryKey = true ∧
      resolvePath
        (.cons (FieldMapping.leaf "X" "x" 0 false false)
          (.cons (FieldMapping.node "E" 1
            (.cons (FieldMapping.leaf "ID" "id" 0 true true) .nil)) .nil))
        [1, 0] = some (FieldMapping.leaf "ID" "id" 0 true true)) ∧
    FieldMappings.Find (.cons (FieldMapping.leaf "X" "x" 0 false false) .nil)
      (fun f => f.column == "z") = .error .fieldNotFound ∧
    FieldMappings.FindByColumn branchThenLeaf "b" = .error .fieldNotFound :=
  ⟨find_search_contract.1
      (.cons (FieldMapping.leaf "X" "x" 0 false false)
        (.cons (FieldMapping.node "E" 1
          (.cons (FieldMapping.leaf "ID" "id" 0 true true) .nil)) .nil))
      (fun f => f.isPrimaryKey)
      (FieldMapping.leaf "ID" "id" 0 true true) [1, 0] rfl rfl,
   (find_search_contract.2.1 (.cons (FieldMapping.leaf "X" "x" 0 false false) .nil)
      (fun f => f.column == "z") rfl).mpr rfl,
   find_search_contract.2.2 .nil
     (FieldMapping.node "E" 0 (.cons (FieldMapping.leaf "A" "a" 0 false false) .nil))
     (.cons (FieldMapping.leaf "B" "b" 1 false false) .nil)
     (fun f => f.column == "b") rfl rfl rfl rfl⟩

/-! ## Claim C4 (amended): cache-core preservation -/

theorem cachePres_refl (c : Cache) : CachePres c c :=
  fun _ m h => ⟨m, h, rfl, rfl, rfl⟩

theorem cachePres_trans {a b c : Cache} (h1 : CachePres a b) (h2 : CachePres b c) :
    CachePres a c := by
  intro t m h
  obtain ⟨m1, hl1, ht1, hn1, hf1⟩ := h1 t m h
  obtain ⟨m2, hl2, ht2, hn2, hf2⟩ := h2 t m1 hl1
  exact ⟨m2, hl2, ht2.trans ht1, hn2.trans hn1, hf2.trans hf1⟩

theorem lookupCache_saveCache (c : Cache) (k : String) (m : StructMapping) (t : String) :
    lookupCache (saveCache c k m) t = if t = k then some m else lookupCache c t := by
  induction c with
  | nil =>
    by_cases ht : t = k
    · subst ht; simp [saveCache, lookupCache]
    · have h1 : (k == t) = false := by
        rw [beq_eq_false_iff_ne]
        exact fun h => ht h.symm
      simp [saveCache, lookupCache, List.find?, h1, ht]
  | cons e rest ih =>
    obtain ⟨k', m'⟩ := e
    by_cases hk : k' = k
    · subst hk
      simp only [saveCache, beq_self_eq_true, if_true]
      by_cases ht : t = k'
      · subst ht; simp [lookupCache, List.find?]
      · have h1 : (k' == t) = false := by
          rw [beq_eq_false_iff_ne]
          exact fun h => ht h.symm
        simp [lookupCache, List.find?, h1, ht]
    · have hk2 : (k' == k) = false := by
        rw [beq_eq_false_iff_ne]
        exact hk
      simp only [saveCache, hk2, Bool.false_eq_true, if_false]
      by_cases ht : t = k'
      · subst ht
        have hneq : ¬ t = k := hk
        simp [lookupCache, List.find?, hneq]
      · have h1 : (k' == t) = false := by
          rw [beq_eq_false_iff_ne]
          exact fun h => ht h.symm
        simp only [lookupCache, List.find?, h1] at ih ⊢
        exact ih

theorem lookupCache_updateParentAt (c : Cache) (k : String) (p : Option String) (t : String) :
    lookupCache (updateParentAt c k p) t
      = (lookupCache c t).map (fun m => if t = k then { m with parent := p } else m) := by
  induction c with
  | nil => simp [updateParentAt, lookupCache]
  | cons e rest ih =>
    obtain ⟨k', m'⟩ := e
    by_cases hk : k' = k
    · subst hk
      simp only [updateParentAt, List.map_cons, beq_self_eq_true, if_true]
      by_cases ht : t = k'
      · subst ht
        simp [lookupCache, List.find?]
      · have h1 : (k' == t) = false := by
          rw [beq_eq_false_iff_ne]
          exact fun h => ht h.symm
        simp only [lookupCache, List.find?, h1] at ih ⊢
        simpa [updateParentAt] using ih
    · have hk2 : (k' == k) = false := by
        rw [beq_eq_false_iff_ne]
        exact hk
      simp only [updateParentAt, List.map_cons, hk2, Bool.false_eq_true, if_false]
      by_cases ht : t = k'
      · subst ht
        have hneq : ¬ t = k := hk
        simp [lookupCache, List.find?, hneq]
      · have h1 : (k' == t) = false := by
          rw [beq_eq_false_iff_ne]
          exact fun h => ht h.symm
        simp only [lookupCache, List.find?, h1] at ih ⊢
        simpa [updateParentAt] using ih

theorem cachePres_updateParentAt (c : Cache) (k : String) (p : Option String) :
    CachePres c (updateParentAt c k p) := by
  intro t m h
  by_cases ht : t = k
  · subst ht
    exact ⟨{ m with parent := p }, by rw [lookupCache_updateParentAt, h]; simp, rfl, rfl, rfl⟩
  · exact ⟨m, by rw [lookupCache_updateParentAt, h]; simp [ht], rfl, rfl, rfl⟩

theorem processFieldsWith_pres (gm : GoTy → Cache → GoOutcome StructMapping × Cache)
    (hgm : ∀ ty c, CachePres c (gm ty c).2) (pt : String) :
    ∀ (flds : List GoStructField) (i : Nat) (c : Cache),
      CachePres c (processFieldsWith gm pt flds i c).2 := by
  intro flds
  induction flds with
  | nil => intro i c; exact cachePres_refl c
  | cons fld rest ih =>
    intro i c
    cases fld with
    | mk fname anon exported dbTag fty =>
      simp only [processFieldsWith]
      by_cases hae : (anon && exported) = true
      · rw [if_pos hae]
        rcases hg : gm fty c with ⟨out, c1⟩
        have hp1 : CachePres c c1 := by
          have := hgm fty c
          rwa [hg] at this
        cases out with
        | ok embeded =>
          have hp2 : CachePres c (updateParentAt c1 embeded.table (some pt)) :=
            cachePres_trans hp1 (cachePres_updateParentAt c1 embeded.table (some pt))
          rcases hrec : processFieldsWith gm pt rest (i + 1)
              (updateParentAt c1 embeded.table (some pt)) with ⟨out2, c2⟩
          have hp3 : CachePres (updateParentAt c1 embeded.table (some pt)) c2 := by
            have := ih (i + 1) (updateParentAt c1 embeded.table (some pt))
            rwa [hrec] at this
          cases out2 <;> simp [hrec] <;> exact cachePres_trans hp2 hp3
        | err e => simpa using hp1
        | panicked s => simpa using hp1
      · rw [if_neg hae]
        by_cases hdash : (dbTag == "-") = true
        · rw [if_pos hdash]
          exact ih (i + 1) c
        · rw [if_neg hdash]
          rcases hrec : processFieldsWith gm pt rest (i + 1) c with ⟨out2, c2⟩
          have hp3 : CachePres c c2 := by
            have := ih (i + 1) c
            rwa [hrec] at this
          cases out2 <;> simpa [hrec] using hp3

theorem getMapping_pres : ∀ (fuel : Nat) (ty : GoTy) (cache : Cache),
    CachePres cache (getMapping fuel ty cache).2
  | 0, _, cache => cachePres_refl cache
  | fuel + 1, ty, cache => by
    cases ty with
    | nonStruct k => exact cachePres_refl cache
    | strukt tyName tn flds =>
      simp only [getMapping]
      rcases htn : (match tn with | some t => lookupCache cache t | none => none) with _ | sch
      · rcases hlook : lookupCache cache (snakecaseStr tyName) with _ | m0
        · rcases hpf : processFieldsWith (getMapping fuel) (snakecaseStr tyName) flds 0 cache
            with ⟨out, c1⟩
          have hp1 : CachePres cache c1 := by
            have := processFieldsWith_pres (getMapping fuel)
              (fun ty c => getMapping_pres fuel ty c) (snakecaseStr tyName) flds 0 cache
            rwa [hpf] at this
          cases out with
          | ok fieldList =>
            simp only [htn, hlook, hpf]
            intro t m h
            obtain ⟨m1, hl1, ht1, hn1, hf1⟩ := hp1 t m h
            refine ⟨m1, ?_, ht1, hn1, hf1⟩
            rw [lookupCache_saveCache]
            rw [if_neg ?hne]
            · exact hl1
            case hne =>
              intro hEq
              rw [hEq] at h
              rw [hlook] at h
              exact Option.noConfusion h
          | err e => simpa [htn, hlook, hpf] using hp1
          | panicked s => simpa [htn, hlook, hpf] using hp1
        · simpa [htn, hlook] using cachePres_refl cache
      · simpa [htn] using cachePres_refl cache

/-- C4 (amended): an introspection never drops a cache entry and never
changes the table, type or field list of any descriptor already published
to the cache; only the parent back-reference of a cached descriptor may be
reassigned, which happens when a newly introspected type embeds it. -/
theorem introspection_preserves_cached_core :
    ∀ (fuel : Nat) (ty : GoTy) (cache : Cache) (t : String) (m : StructMapping),
      lookupCache cache t = some m →
      ∃ m', lookupCache (getMapping fuel ty cache).2 t = some m' ∧
        m'.table = m.table ∧ m'.typeName = m.typeName ∧ m'.fields = m.fields :=
  fun fuel ty cache t m h => getMapping_pres fuel ty cache t m h

/-- C4 witness: introspecting B over the cache holding A preserves A's
table, type and field list (only the parent was reassigned). -/
theorem introspection_preserves_cached_core_witness :
    ∃ m', lookupCache ((getMapping 3 tyB cacheAfterA).2) "a" = some m' ∧
      m'.table = "a" ∧ m'.typeName = "A" ∧
      m'.fields = .cons (FieldMapping.leaf "ID" "id" 0 true true)
        (.cons (FieldMapping.leaf "Name" "name" 1 false false) .nil) :=
  introspection_preserves_cached_core 3 tyB cacheAfterA "a"
    ⟨none, "a", "A", .cons (FieldMapping.leaf "ID" "id" 0 true true)
      (.cons (FieldMapping.leaf "Name" "name" 1 false false) .nil)⟩ rfl

end Orm
